import Mathlib

/-!
A shallow embedding of the backtest simulation core of the dataDig repository:
the day-by-day execution loop of `BacktestEngine._execute_backtest`
(src/strategy/engines/backtest_engine.py), the position bookkeeping of
`BaseStrategy.update_position` (src/strategy/models/base_strategy.py), and the
metric derivation of `BacktestResult.calculate_metrics`
(src/strategy/models/backtest_result.py).

Python floats are modelled as rationals (ℚ), Python ints as ℤ, dicts as
association lists built with insert/erase operations that mirror dict
assignment and `del`.  The engine's input is taken after the pandas plumbing:
a list of (trade_date, rows) groups, each row being (ts_code, bar), in the
order the loop visits them.  Strategy objects are modelled by their observable
interface: the signal predicates and the position-size function (which the
engine calls right after writing the current cash into the strategy).
-/

namespace DataDig

attribute [local semireducible] Rat.mul Rat.inv Rat.add Rat.sub

/-- Python `int()` truncation (toward zero) of a rational; `Int.tdiv`
truncates toward zero exactly like Python's `int()`. -/
def pyInt (q : ℚ) : ℤ := q.num.tdiv (q.den : ℤ)

/-- One daily bar as seen by the engine loop: only the close participates in
the traded paths (`row['close']`). -/
structure Bar where
  close : ℚ
  deriving Repr, DecidableEq

/-- `PositionInfo` of base_strategy.py (the fields the engine reads/writes). -/
structure PositionInfo where
  symbol : String
  quantity : ℤ
  avg_price : ℚ
  realized_pnl : ℚ
  deriving Repr, DecidableEq

/-- `PositionInfo()` freshly constructed and given its symbol, as the engine
does right after `positions[symbol] = PositionInfo()`. -/
def PositionInfo.empty (sym : String) : PositionInfo :=
  { symbol := sym, quantity := 0, avg_price := 0, realized_pnl := 0 }

/-- `Trade` of backtest_result.py. -/
structure Trade where
  symbol : String
  trade_date : String
  action : String
  quantity : ℤ
  price : ℚ
  amount : ℚ
  commission : ℚ
  deriving Repr, DecidableEq

/-- `DailyReturn` of backtest_result.py. -/
structure DailyReturn where
  trade_date : String
  total_value : ℚ
  cash : ℚ
  stock_value : ℚ
  daily_return : ℚ
  cumulative_return : ℚ
  positions : ℕ
  deriving Repr, DecidableEq

/-- `BacktestSummary` of backtest_result.py. -/
structure BacktestSummary where
  strategy_name : String
  start_date : String
  end_date : String
  initial_cash : ℚ
  final_value : ℚ
  total_return : ℚ
  annualized_return : ℚ
  max_drawdown : ℚ
  volatility : ℚ
  sharpe_ratio : ℚ
  total_trades : ℕ
  win_rate : ℚ
  avg_holding_days : ℚ
  trading_days : ℕ
  deriving Repr, DecidableEq

/-- `BacktestResult` of backtest_result.py (the `created_at` timestamp is
irrelevant to every computation and omitted). -/
structure BacktestResult where
  summary : BacktestSummary
  trades : List Trade
  daily_returns : List DailyReturn
  deriving Repr, DecidableEq

/-- The observable interface of a `BaseStrategy` instance as the engine uses
it: the two signal predicates, and `get_position_size` as a function of the
cash the engine has just written into the strategy (`buy_strategy.cash =
current_cash`), the symbol and the price.  `initial_cash` is the strategy's
`cash` attribute at the start of the run. -/
structure Strategy where
  name : String
  initial_cash : ℚ
  should_buy : String → Bar → Bool
  should_sell : String → Bar → Bool
  get_position_size : ℚ → String → ℚ → ℤ

/-- The default `BaseStrategy.get_position_size`: 95% of cash, rounded down to
a multiple of 100 shares (`int(max_value / price / 100) * 100`). -/
def defaultPositionSize (cash : ℚ) (price : ℚ) : ℤ :=
  pyInt (cash * (95 / 100) / price / 100) * 100

/-! ### Association lists standing in for Python dicts -/

/-- Dict lookup (`d[k]` / `k in d`). -/
def lookupA {α : Type} : List (String × α) → String → Option α
  | [], _ => none
  | (k, v) :: rest, s => if k = s then some v else lookupA rest s

/-- Dict assignment `d[k] = v`: replaces in place, appends if absent. -/
def setA {α : Type} : List (String × α) → String → α → List (String × α)
  | [], k, v => [(k, v)]
  | (k', v') :: rest, k, v =>
      if k' = k then (k', v) :: rest else (k', v') :: setA rest k v

/-- Dict deletion `del d[k]` (removes the entry with key `k`). -/
def eraseA {α : Type} : List (String × α) → String → List (String × α)
  | [], _ => []
  | (k', v') :: rest, k => if k' = k then rest else (k', v') :: eraseA rest k

/-! ### The engine's ledger state and the per-symbol trading step -/

/-- The engine-owned mutable state of `_execute_backtest`: `current_cash`,
the unified `positions` dict and the append-only `trades` list. -/
structure EngineState where
  cash : ℚ
  positions : List (String × PositionInfo)
  trades : List Trade
  deriving Repr, DecidableEq

/-- The buy block of the inner loop (backtest_engine.py lines 201-243).
The strategy-internal mirror (`buy_strategy.update_position`) is not part of
the engine ledger and is not modelled. -/
def buyStep (buy_strategy : Option Strategy) (commission_rate : ℚ)
    (trade_date symbol : String) (bar : Bar) (st : EngineState) : EngineState :=
  match buy_strategy with
  | none => st
  | some bs =>
    if 1000 < st.cash then
      if bs.should_buy symbol bar then
        let quantity := bs.get_position_size st.cash symbol bar.close
        if 0 < quantity then
          let amount := (quantity : ℚ) * bar.close
          let commission := amount * commission_rate
          let total_cost := amount + commission
          if total_cost ≤ st.cash then
            let pos := (lookupA st.positions symbol).getD (PositionInfo.empty symbol)
            let total_cost_shares := (pos.quantity : ℚ) * pos.avg_price + (quantity : ℚ) * bar.close
            let total_quantity := pos.quantity + quantity
            let avg := if 0 < total_quantity then total_cost_shares / (total_quantity : ℚ)
                       else pos.avg_price
            { cash := st.cash - total_cost,
              positions := setA st.positions symbol
                { pos with quantity := total_quantity, avg_price := avg },
              trades := st.trades ++
                [{ symbol := symbol, trade_date := trade_date, action := "buy",
                   quantity := quantity, price := bar.close, amount := amount,
                   commission := commission }] }
          else st
        else st
      else st
    else st

/-- The sell block of the inner loop (backtest_engine.py lines 245-282): the
entire held quantity is sold, the realized P/L is booked into the position and
the entry is then deleted. -/
def sellStep (sell_strategy : Option Strategy) (commission_rate : ℚ)
    (trade_date symbol : String) (bar : Bar) (st : EngineState) : EngineState :=
  match sell_strategy with
  | none => st
  | some ss =>
    match lookupA st.positions symbol with
    | none => st
    | some position =>
      if 0 < position.quantity then
        if ss.should_sell symbol bar then
          let quantity := position.quantity
          let amount := (quantity : ℚ) * bar.close
          let commission := amount * commission_rate
          let net_amount := amount - commission
          { cash := st.cash + net_amount,
            positions := eraseA st.positions symbol,
            trades := st.trades ++
              [{ symbol := symbol, trade_date := trade_date, action := "sell",
                 quantity := quantity, price := bar.close, amount := amount,
                 commission := commission }] }
        else st
      else st

/-- One iteration of `for _, row in daily_data.iterrows()`: the buy block runs
first, then the sell block sees the updated positions. -/
def stepSymbol (buy_strategy sell_strategy : Option Strategy) (commission_rate : ℚ)
    (trade_date : String) (row : String × Bar) (st : EngineState) : EngineState :=
  sellStep sell_strategy commission_rate trade_date row.1 row.2
    (buyStep buy_strategy commission_rate trade_date row.1 row.2 st)

/-- All rows of one trading date, in feed order. -/
def stepRows (buy_strategy sell_strategy : Option Strategy) (commission_rate : ℚ)
    (trade_date : String) (rows : List (String × Bar)) (st : EngineState) : EngineState :=
  rows.foldl (fun s r => stepSymbol buy_strategy sell_strategy commission_rate trade_date r s) st

/-- `current_prices`: the date's close per symbol, built dict-style before the
signal loop. -/
def pricesOf (rows : List (String × Bar)) : List (String × ℚ) :=
  rows.foldl (fun m r => setA m r.1 r.2.close) []

/-- The end-of-date mark-to-market sum: positions priced on this date
contribute `quantity * close`; positions without a bar contribute nothing. -/
def stockValue : List (String × PositionInfo) → List (String × ℚ) → ℚ
  | [], _ => 0
  | e :: ps, prices =>
      (match lookupA prices e.1 with
       | some p => (e.2.quantity : ℚ) * p
       | none => 0) + stockValue ps prices

/-- The date loop of `_execute_backtest`: threads the engine state and the
previous total value, and emits one `DailyReturn` per date. -/
def execDates (buy_strategy sell_strategy : Option Strategy)
    (commission_rate initial_cash : ℚ) :
    EngineState → ℚ → List (String × List (String × Bar)) →
    EngineState × List DailyReturn
  | eng, _, [] => (eng, [])
  | eng, previous_total, (d, rows) :: rest =>
    let eng' := stepRows buy_strategy sell_strategy commission_rate d rows eng
    let stock_value := stockValue eng'.positions (pricesOf rows)
    let total_value := eng'.cash + stock_value
    let daily_return :=
      if 0 < previous_total then (total_value - previous_total) / previous_total else 0
    let cumulative_return :=
      if 0 < initial_cash then (total_value - initial_cash) / initial_cash else 0
    let dRec : DailyReturn :=
      { trade_date := d, total_value := total_value, cash := eng'.cash,
        stock_value := stock_value, daily_return := daily_return,
        cumulative_return := cumulative_return, positions := eng'.positions.length }
    let next := execDates buy_strategy sell_strategy commission_rate initial_cash eng' total_value rest
    (next.1, dRec :: next.2)

/-- The engine state at the start of a run: the main strategy's cash, no
positions, no trades. -/
def initialEngineState (cash : ℚ) : EngineState :=
  { cash := cash, positions := [], trades := [] }

/-- `main_strategy = buy_strategy or sell_strategy`. -/
def mainOf (buy_strategy sell_strategy : Option Strategy) : Option Strategy :=
  buy_strategy.orElse (fun _ => sell_strategy)

/-! ### Performance metrics (`BacktestResult.calculate_metrics`) -/

/-- The tail of the drawdown scan: carries the cumulative product and the
running maximum, emitting `(cumulative - runningMax) / runningMax` at each
point. -/
def ddScan (cumulative runningMax : ℚ) : List ℚ → List ℚ
  | [] => []
  | r :: rs =>
    let c := cumulative * (1 + r)
    let m := max runningMax c
    (c - m) / m :: ddScan c m rs

/-- `(1 + returns).cumprod()` with `expanding().max()` and the pointwise
drawdown, as in calculate_metrics: the first running maximum is the first
cumulative value itself. -/
def drawdownList : List ℚ → List ℚ
  | [] => []
  | r :: rs =>
    let c := 1 * (1 + r)
    (c - c) / c :: ddScan c c rs

/-- `series.min()` over a (possibly empty) list; the empty case never arises
in calculate_metrics, which returns early when there are no daily returns. -/
def listMin : List ℚ → ℚ
  | [] => 0
  | x :: xs => xs.foldl min x

/-- The max-drawdown reduction of calculate_metrics (lines 150-154). -/
def maxDrawdown (returns : List ℚ) : ℚ :=
  listMin (drawdownList returns)

/-- The per-symbol pairing loop of the win-rate block (lines 183-197):
state is `(position, cost_basis)`; a buy from a zero position resets the
basis to that buy's price, any buy adds its quantity; a sell is counted only
while `position > 0`, wins when `(price - cost_basis) * min(quantity,
position) > 0`, and reduces the position. -/
def symbolWinLoop : ℤ → ℚ → ℕ → ℕ → List Trade → ℕ × ℕ
  | _, _, profitable, total_paired, [] => (profitable, total_paired)
  | position, cost_basis, profitable, total_paired, t :: ts =>
    if t.action = "buy" then
      symbolWinLoop (position + t.quantity)
        (if position = 0 then t.price else cost_basis) profitable total_paired ts
    else if t.action = "sell" then
      if 0 < position then
        let profit := (t.price - cost_basis) * ((min t.quantity position : ℤ) : ℚ)
        symbolWinLoop (position - t.quantity) cost_basis
          (if 0 < profit then profitable + 1 else profitable) (total_paired + 1) ts
      else
        symbolWinLoop position cost_basis profitable total_paired ts
    else
      symbolWinLoop position cost_basis profitable total_paired ts

/-- Helper for `dedupFirst`: keeps the first occurrence of each string,
skipping those already seen. -/
def dedupFirstAux (seen : List String) : List String → List String
  | [] => []
  | s :: ss => if s ∈ seen then dedupFirstAux seen ss else s :: dedupFirstAux (s :: seen) ss

/-- Symbols in order of first appearance, as iterating the `trade_pairs`
dict yields them. -/
def dedupFirst (l : List String) : List String :=
  dedupFirstAux [] l

/-- `symbol_trades.sort(key=lambda x: x.trade_date)`: a stable sort by trade
date (Python's sort is stable; insertion sort with `≤` preserves the relative
order of equal dates).  Python compares strings lexicographically by code
point, which is exactly the lexicographic order on the strings' character
lists. -/
def sortByDate (ts : List Trade) : List Trade :=
  List.insertionSort (fun a b => a.trade_date.data ≤ b.trade_date.data) ts

/-- The whole win-rate count (lines 166-198): trades grouped per symbol in
first-appearance order, each group sorted by date and folded through
`symbolWinLoop`; returns `(profitable_trades, total_paired_trades)`. -/
def winStats (trades : List Trade) : ℕ × ℕ :=
  (dedupFirst (trades.map (fun t => t.symbol))).foldl
    (fun acc sym =>
      let stats := symbolWinLoop 0 0 0 0 (sortByDate (trades.filter (fun t => t.symbol = sym)))
      (acc.1 + stats.1, acc.2 + stats.2))
    (0, 0)

/-- `calculate_metrics` restricted to the rational-valued fields: the
annualized return, volatility and Sharpe ratio use floating-point `**` and
`sqrt` and are left untouched here (no claim concerns them; in the engine
pipeline they remain at their initial 0.0). -/
def calculateMetrics (r : BacktestResult) : BacktestResult :=
  if r.daily_returns = [] then r
  else
    let returns := r.daily_returns.map (fun d => d.daily_return)
    let s0 := { r.summary with
      total_return := r.summary.final_value / r.summary.initial_cash - 1,
      max_drawdown := maxDrawdown returns }
    let s1 :=
      if r.trades = [] then s0
      else
        let stats := winStats r.trades
        let s' := if 0 < stats.2 then { s0 with win_rate := (stats.1 : ℚ) / (stats.2 : ℚ) }
                  else s0
        { s' with total_trades := r.trades.length }
    { r with summary := s1 }

/-- `_execute_backtest` end to end: run the date loop from the main
strategy's cash, assemble the summary (final value and cumulative return are
the last date's), then apply `calculate_metrics`.  `none` stands for the
`ValueError` that `run_backtest` raises when neither strategy is supplied. -/
def execBacktest (buy_strategy sell_strategy : Option Strategy)
    (data : List (String × List (String × Bar)))
    (start_date end_date : String) (commission_rate : ℚ) : Option BacktestResult :=
  match mainOf buy_strategy sell_strategy with
  | none => none
  | some main =>
    let init := main.initial_cash
    let run := execDates buy_strategy sell_strategy commission_rate init
      (initialEngineState init) init data
    let final_value := match run.2.getLast? with
      | some d => d.total_value
      | none => init
    let cumulative := match run.2.getLast? with
      | some d => d.cumulative_return
      | none => 0
    let summary : BacktestSummary :=
      { strategy_name := main.name, start_date := start_date, end_date := end_date,
        initial_cash := init, final_value := final_value, total_return := cumulative,
        annualized_return := 0, max_drawdown := 0, volatility := 0, sharpe_ratio := 0,
        total_trades := run.1.trades.length, win_rate := 0, avg_holding_days := 0,
        trading_days := data.length }
    some (calculateMetrics
      { summary := summary, trades := run.1.trades, daily_returns := run.2 })

/-! ### `BaseStrategy.update_position` (strategy-internal ledger) -/

/-- The strategy-internal mutable state touched by `update_position`. -/
structure StratState where
  positions : List (String × PositionInfo)
  cash : ℚ
  deriving Repr, DecidableEq

/-- `BaseStrategy.update_position` (base_strategy.py lines 108-154).  A fresh
empty position is inserted first when the symbol is absent; on `"buy"` the
quantity is added with a weighted-average cost update and cash is debited by
`quantity * price`; on `"sell"` the update happens only when `quantity <=
pos.quantity` — an oversized sell request falls through silently, leaving
position and cash untouched.  The entry is deleted when its quantity reaches
zero. -/
def update_position (st : StratState) (symbol : String) (quantity : ℤ)
    (price : ℚ) (action : String) : StratState :=
  let positions0 :=
    if (lookupA st.positions symbol).isSome then st.positions
    else setA st.positions symbol (PositionInfo.empty symbol)
  let pos := (lookupA positions0 symbol).getD (PositionInfo.empty symbol)
  if action = "buy" then
    let total_cost := (pos.quantity : ℚ) * pos.avg_price + (quantity : ℚ) * price
    let total_quantity := pos.quantity + quantity
    let avg := if 0 < total_quantity then total_cost / (total_quantity : ℚ) else pos.avg_price
    { positions := setA positions0 symbol
        { pos with quantity := total_quantity, avg_price := avg },
      cash := st.cash - (quantity : ℚ) * price }
  else if action = "sell" then
    if quantity ≤ pos.quantity then
      let sell_value := (quantity : ℚ) * price
      let sell_cost := (quantity : ℚ) * pos.avg_price
      let pos' := { pos with
        realized_pnl := pos.realized_pnl + (sell_value - sell_cost),
        quantity := pos.quantity - quantity }
      let positions' := setA positions0 symbol pos'
      { positions := if pos'.quantity = 0 then eraseA positions' symbol else positions',
        cash := st.cash + sell_value }
    else { positions := positions0, cash := st.cash }
  else { positions := positions0, cash := st.cash }

/-! ### Concrete strategies used by the counterexamples and witnesses -/

/-- A combined strategy that always signals buy and sell and requests a fixed
quantity; a legal `BaseStrategy` subclass. -/
def alwaysStrategy (q : ℤ) : Strategy :=
  { name := "always", initial_cash := 100000,
    should_buy := fun _ _ => true, should_sell := fun _ _ => true,
    get_position_size := fun _ _ _ => q }

/-- A buy-only strategy (never signals sell) requesting a fixed quantity. -/
def buyOnlyStrategy (q : ℤ) : Strategy :=
  { name := "buyOnly", initial_cash := 100000,
    should_buy := fun _ _ => true, should_sell := fun _ _ => false,
    get_position_size := fun _ _ _ => q }

/-! ### The engine state after a prefix of the date loop -/

/-- The engine state left behind after processing a list of dates (the
ledger part of `execDates`, without the valuation records). -/
def engAfter (buy_strategy sell_strategy : Option Strategy) (commission_rate : ℚ) :
    EngineState → List (String × List (String × Bar)) → EngineState
  | st, [] => st
  | st, (d, rows) :: rest =>
      engAfter buy_strategy sell_strategy commission_rate
        (stepRows buy_strategy sell_strategy commission_rate d rows st) rest

/-- The ledger well-formedness invariant the run maintains: cash is
nonnegative and every open position has nonnegative quantity. -/
def Inv (st : EngineState) : Prop :=
  0 ≤ st.cash ∧ ∀ e ∈ st.positions, 0 ≤ e.2.quantity

/-- All close prices of one date's rows are nonnegative. -/
def rowsNonneg (rows : List (String × Bar)) : Prop :=
  ∀ r ∈ rows, 0 ≤ r.2.close

/-- All close prices in the whole feed are nonnegative. -/
def dataNonneg (data : List (String × List (String × Bar))) : Prop :=
  ∀ g ∈ data, rowsNonneg g.2

/-- The initial cash of the run: the main strategy's `cash`. -/
def initOf (buy_strategy sell_strategy : Option Strategy) : ℚ :=
  match mainOf buy_strategy sell_strategy with
  | some m => m.initial_cash
  | none => 0

/-! ### The spec's claimed win-rate pairing rule, for comparison -/

/-- Modelled from the spec's win-rate sentence (“pair buy and sell Trades per
symbol using a running average-cost basis (same rule as the Ledger)”), for
comparison with the source's `symbolWinLoop`: here a buy re-averages the cost
basis over the combined quantity exactly like `Position.avg_price`; a sell
while the tracked position is positive counts toward the denominator and is a
win exactly when its price exceeds the weighted-average basis. -/
def claimSymbolLoop : ℤ → ℚ → ℕ → ℕ → List Trade → ℕ × ℕ
  | _, _, wins, paired, [] => (wins, paired)
  | position, basis, wins, paired, t :: ts =>
    if t.action = "buy" then
      claimSymbolLoop (position + t.quantity)
        (if 0 < position + t.quantity then
          ((position : ℚ) * basis + (t.quantity : ℚ) * t.price)
            / ((position + t.quantity : ℤ) : ℚ)
         else basis)
        wins paired ts
    else if t.action = "sell" then
      if 0 < position then
        claimSymbolLoop (position - t.quantity) basis
          (if basis < t.price then wins + 1 else wins) (paired + 1) ts
      else claimSymbolLoop position basis wins paired ts
    else claimSymbolLoop position basis wins paired ts

/-- The spec's claimed win-rate counts: same grouping and date order as the
source, but with the weighted-average basis rule of `claimSymbolLoop`. -/
def claimWinStats (trades : List Trade) : ℕ × ℕ :=
  (dedupFirst (trades.map (fun t => t.symbol))).foldl
    (fun acc sym =>
      let stats := claimSymbolLoop 0 0 0 0
        (sortByDate (trades.filter (fun t => t.symbol = sym)))
      (acc.1 + stats.1, acc.2 + stats.2))
    (0, 0)

/-! ### Association-list lemmas -/

theorem lookupA_mem {α : Type} {l : List (String × α)} {k : String} {v : α}
    (h : lookupA l k = some v) : (k, v) ∈ l := by
  induction l with
  | nil => simp [lookupA] at h
  | cons e rest ih =>
    obtain ⟨k', v'⟩ := e
    by_cases hk : k' = k
    · subst hk
      simp [lookupA] at h
      simp [h]
    · simp [lookupA, hk] at h
      exact List.mem_cons_of_mem _ (ih h)

theorem mem_setA {α : Type} {l : List (String × α)} {k : String} {v : α}
    {e : String × α} (h : e ∈ setA l k v) : e = (k, v) ∨ e ∈ l := by
  induction l with
  | nil =>
    simp [setA] at h
    exact Or.inl h
  | cons e' rest ih =>
    obtain ⟨k', v'⟩ := e'
    by_cases hk : k' = k
    · subst hk
      simp [setA] at h
      rcases h with h | h
      · exact Or.inl h
      · exact Or.inr (List.mem_cons_of_mem _ h)
    · simp [setA, hk] at h
      rcases h with h | h
      · exact Or.inr (by simp [h])
      · rcases ih h with h' | h'
        · exact Or.inl h'
        · exact Or.inr (List.mem_cons_of_mem _ h')

theorem mem_eraseA {α : Type} {l : List (String × α)} {k : String}
    {e : String × α} (h : e ∈ eraseA l k) : e ∈ l := by
  induction l with
  | nil => simp [eraseA] at h
  | cons e' rest ih =>
    obtain ⟨k', v'⟩ := e'
    by_cases hk : k' = k
    · simp [eraseA, hk] at h
      exact List.mem_cons_of_mem _ h
    · simp [eraseA, hk] at h
      rcases h with h | h
      · simp [h]
      · exact List.mem_cons_of_mem _ (ih h)

theorem lookupA_setA_self {α : Type} (l : List (String × α)) (k : String) (v : α) :
    lookupA (setA l k v) k = some v := by
  induction l with
  | nil => simp [setA, lookupA]
  | cons e rest ih =>
    obtain ⟨k', v'⟩ := e
    by_cases hk : k' = k
    · simp [setA, hk, lookupA]
    · simp [setA, hk, lookupA, ih]

theorem lookupA_setA_ne {α : Type} (l : List (String × α)) {k k' : String} (v : α)
    (h : k' ≠ k) : lookupA (setA l k v) k' = lookupA l k' := by
  induction l with
  | nil => simp [setA, lookupA, Ne.symm h]
  | cons e rest ih =>
    obtain ⟨k'', v''⟩ := e
    by_cases hk : k'' = k
    · subst hk
      simp [setA, lookupA, Ne.symm h]
    · simp only [setA, if_neg hk, lookupA, ih]

theorem lookupA_eraseA_ne {α : Type} (l : List (String × α)) {k k' : String}
    (h : k' ≠ k) : lookupA (eraseA l k) k' = lookupA l k' := by
  induction l with
  | nil => simp [eraseA]
  | cons e rest ih =>
    obtain ⟨k'', v''⟩ := e
    by_cases hk : k'' = k
    · subst hk
      simp [eraseA, lookupA, Ne.symm h]
    · simp only [eraseA, if_neg hk, lookupA, ih]

theorem setA_of_lookupA_none {α : Type} {l : List (String × α)} {k : String}
    (h : lookupA l k = none) (v : α) : setA l k v = l ++ [(k, v)] := by
  induction l with
  | nil => simp [setA]
  | cons e rest ih =>
    obtain ⟨k', v'⟩ := e
    by_cases hk : k' = k
    · simp [lookupA, hk] at h
    · simp [lookupA, hk] at h
      simp [setA, hk, ih h]

theorem eraseA_append_of_lookupA_none {α : Type} {l : List (String × α)} {k : String}
    (h : lookupA l k = none) (v : α) : eraseA (l ++ [(k, v)]) k = l := by
  induction l with
  | nil => simp [eraseA]
  | cons e rest ih =>
    obtain ⟨k', v'⟩ := e
    by_cases hk : k' = k
    · simp [lookupA, hk] at h
    · simp [lookupA, hk] at h
      simp [eraseA, hk, ih h]

theorem lookupA_eraseA_self {α : Type} {l : List (String × α)} {k : String}
    (h : (l.map Prod.fst).Nodup) : lookupA (eraseA l k) k = none := by
  induction l with
  | nil => simp [eraseA, lookupA]
  | cons e rest ih =>
    obtain ⟨k', v'⟩ := e
    simp only [List.map_cons, List.nodup_cons] at h
    by_cases hk : k' = k
    · subst hk
      simp only [eraseA, if_pos rfl]
      cases hr : lookupA rest k' with
      | none => exact hr
      | some v =>
        exact absurd (List.mem_map_of_mem Prod.fst (lookupA_mem hr)) h.1
    · simp [eraseA, hk, lookupA, ih h.2]

/-! ### Characterizations of the buy and sell blocks -/

theorem buyStep_none (rate : ℚ) (d sym : String) (bar : Bar) (st : EngineState) :
    buyStep none rate d sym bar st = st := rfl

theorem sellStep_none (rate : ℚ) (d sym : String) (bar : Bar) (st : EngineState) :
    sellStep none rate d sym bar st = st := rfl

/-- Either the buy block is a no-op, or all four of its guards hold. -/
theorem buyStep_cases (bs : Strategy) (rate : ℚ) (d sym : String) (bar : Bar)
    (st : EngineState) :
    buyStep (some bs) rate d sym bar st = st
    ∨ (1000 < st.cash ∧ bs.should_buy sym bar = true
       ∧ 0 < bs.get_position_size st.cash sym bar.close
       ∧ (bs.get_position_size st.cash sym bar.close : ℚ) * bar.close
           + (bs.get_position_size st.cash sym bar.close : ℚ) * bar.close * rate ≤ st.cash) := by
  by_cases h1 : 1000 < st.cash
  · cases hsb : bs.should_buy sym bar with
    | false => left; simp [buyStep, h1, hsb]
    | true =>
      by_cases h3 : 0 < bs.get_position_size st.cash sym bar.close
      · by_cases h4 : (bs.get_position_size st.cash sym bar.close : ℚ) * bar.close
            + (bs.get_position_size st.cash sym bar.close : ℚ) * bar.close * rate ≤ st.cash
        · right; exact ⟨h1, rfl, h3, h4⟩
        · left; simp [buyStep, h1, hsb, h3, h4]
      · left; simp [buyStep, h1, hsb, h3]
  · left; simp [buyStep, h1]

/-- The buy block under all four guards: the exact resulting state. -/
theorem buyStep_executed (bs : Strategy) (rate : ℚ) (d sym : String) (bar : Bar)
    (st : EngineState)
    (h1 : 1000 < st.cash) (h2 : bs.should_buy sym bar = true)
    (h3 : 0 < bs.get_position_size st.cash sym bar.close)
    (h4 : (bs.get_position_size st.cash sym bar.close : ℚ) * bar.close
        + (bs.get_position_size st.cash sym bar.close : ℚ) * bar.close * rate ≤ st.cash) :
    buyStep (some bs) rate d sym bar st =
      { cash := st.cash - ((bs.get_position_size st.cash sym bar.close : ℚ) * bar.close
            + (bs.get_position_size st.cash sym bar.close : ℚ) * bar.close * rate),
        positions := setA st.positions sym
          { (lookupA st.positions sym).getD (PositionInfo.empty sym) with
            quantity := ((lookupA st.positions sym).getD (PositionInfo.empty sym)).quantity
              + bs.get_position_size st.cash sym bar.close,
            avg_price :=
              if 0 < ((lookupA st.positions sym).getD (PositionInfo.empty sym)).quantity
                  + bs.get_position_size st.cash sym bar.close then
                ((((lookupA st.positions sym).getD (PositionInfo.empty sym)).quantity : ℚ)
                    * ((lookupA st.positions sym).getD (PositionInfo.empty sym)).avg_price
                  + (bs.get_position_size st.cash sym bar.close : ℚ) * bar.close)
                / ((((lookupA st.positions sym).getD (PositionInfo.empty sym)).quantity
                    + bs.get_position_size st.cash sym bar.close : ℤ) : ℚ)
              else ((lookupA st.positions sym).getD (PositionInfo.empty sym)).avg_price },
        trades := st.trades ++
          [{ symbol := sym, trade_date := d, action := "buy",
             quantity := bs.get_position_size st.cash sym bar.close, price := bar.close,
             amount := (bs.get_position_size st.cash sym bar.close : ℚ) * bar.close,
             commission := (bs.get_position_size st.cash sym bar.close : ℚ) * bar.close * rate }] } := by
  simp only [buyStep, if_pos h1, h2, if_pos h3, if_pos h4, if_true]

/-- Either the sell block is a no-op, or its three guards hold. -/
theorem sellStep_cases (ss : Strategy) (rate : ℚ) (d sym : String) (bar : Bar)
    (st : EngineState) :
    sellStep (some ss) rate d sym bar st = st
    ∨ ∃ pos, lookupA st.positions sym = some pos ∧ 0 < pos.quantity
        ∧ ss.should_sell sym bar = true := by
  cases hl : lookupA st.positions sym with
  | none => left; simp [sellStep, hl]
  | some pos =>
    by_cases hq : 0 < pos.quantity
    · cases hss : ss.should_sell sym bar with
      | false => left; simp [sellStep, hl, hq, hss]
      | true => right; exact ⟨pos, rfl, hq, rfl⟩
    · left; simp [sellStep, hl, hq]

/-- The sell block under its guards: the exact resulting state. -/
theorem sellStep_executed (ss : Strategy) (rate : ℚ) (d sym : String) (bar : Bar)
    (st : EngineState) (pos : PositionInfo)
    (hl : lookupA st.positions sym = some pos) (hq : 0 < pos.quantity)
    (hss : ss.should_sell sym bar = true) :
    sellStep (some ss) rate d sym bar st =
      { cash := st.cash + ((pos.quantity : ℚ) * bar.close
            - (pos.quantity : ℚ) * bar.close * rate),
        positions := eraseA st.positions sym,
        trades := st.trades ++
          [{ symbol := sym, trade_date := d, action := "sell",
             quantity := pos.quantity, price := bar.close,
             amount := (pos.quantity : ℚ) * bar.close,
             commission := (pos.quantity : ℚ) * bar.close * rate }] } := by
  simp only [sellStep, hl, if_pos hq, hss, if_true]

theorem stepRows_nil (bs? ss? : Option Strategy) (rate : ℚ) (d : String)
    (st : EngineState) : stepRows bs? ss? rate d [] st = st := rfl

theorem stepRows_cons (bs? ss? : Option Strategy) (rate : ℚ) (d : String)
    (r : String × Bar) (rs : List (String × Bar)) (st : EngineState) :
    stepRows bs? ss? rate d (r :: rs) st =
      stepRows bs? ss? rate d rs (stepSymbol bs? ss? rate d r st) := rfl

/-! ### Invariant preservation -/

theorem inv_buyStep (bs? : Option Strategy) (rate : ℚ) (d sym : String) (bar : Bar)
    (st : EngineState) (h : Inv st) : Inv (buyStep bs? rate d sym bar st) := by
  cases bs? with
  | none => exact h
  | some bs =>
    rcases buyStep_cases bs rate d sym bar st with heq | ⟨h1, h2, h3, h4⟩
    · rw [heq]; exact h
    · rw [buyStep_executed bs rate d sym bar st h1 h2 h3 h4]
      refine ⟨by simpa using by linarith [h4], ?_⟩
      intro e he
      rcases mem_setA he with rfl | he'
      · simp only []
        cases hl : lookupA st.positions sym with
        | none => simp [hl, PositionInfo.empty]; omega
        | some pos =>
          have hm : 0 ≤ pos.quantity := h.2 (sym, pos) (lookupA_mem hl)
          simp [hl]; omega
      · exact h.2 e he'

theorem inv_sellStep (ss? : Option Strategy) (rate : ℚ) (d sym : String) (bar : Bar)
    (st : EngineState) (hrate : rate ≤ 1) (hbar : 0 ≤ bar.close)
    (h : Inv st) : Inv (sellStep ss? rate d sym bar st) := by
  cases ss? with
  | none => exact h
  | some ss =>
    rcases sellStep_cases ss rate d sym bar st with heq | ⟨pos, hl, hq, hss⟩
    · rw [heq]; exact h
    · rw [sellStep_executed ss rate d sym bar st pos hl hq hss]
      refine ⟨?_, fun e he => h.2 e (mem_eraseA he)⟩
      have hqq : (0 : ℚ) ≤ (pos.quantity : ℚ) := by exact_mod_cast hq.le
      have hcash := h.1
      simp only []
      nlinarith [mul_nonneg (mul_nonneg hqq hbar) (by linarith : (0:ℚ) ≤ 1 - rate)]

theorem inv_stepSymbol (bs? ss? : Option Strategy) (rate : ℚ) (d : String)
    (r : String × Bar) (st : EngineState) (hrate : rate ≤ 1) (hbar : 0 ≤ r.2.close)
    (h : Inv st) : Inv (stepSymbol bs? ss? rate d r st) :=
  inv_sellStep ss? rate d r.1 r.2 _ hrate hbar (inv_buyStep bs? rate d r.1 r.2 st h)

theorem inv_stepRows (bs? ss? : Option Strategy) (rate : ℚ) (d : String)
    (rows : List (String × Bar)) (st : EngineState) (hrate : rate ≤ 1)
    (hrows : rowsNonneg rows) (h : Inv st) : Inv (stepRows bs? ss? rate d rows st) := by
  induction rows generalizing st with
  | nil => exact h
  | cons r rs ih =>
    rw [stepRows_cons]
    exact ih _ (fun r' hr' => hrows r' (List.mem_cons_of_mem _ hr'))
      (inv_stepSymbol bs? ss? rate d r st hrate (hrows r (List.mem_cons_self _ _)) h)

/-! ### Shapes of the trades appended by each block -/

theorem buyStep_trades_shape (bs? : Option Strategy) (rate : ℚ) (d sym : String)
    (bar : Bar) (st : EngineState) :
    ∃ ts, (buyStep bs? rate d sym bar st).trades = st.trades ++ ts ∧ ts.length ≤ 1
      ∧ ∀ t ∈ ts, t.action = "buy" ∧ t.symbol = sym ∧ t.trade_date = d := by
  cases bs? with
  | none => exact ⟨[], by simp [buyStep_none]⟩
  | some bs =>
    rcases buyStep_cases bs rate d sym bar st with heq | ⟨h1, h2, h3, h4⟩
    · exact ⟨[], by simp [heq]⟩
    · rw [buyStep_executed bs rate d sym bar st h1 h2 h3 h4]
      exact ⟨[_], rfl, by simp, by simp⟩

theorem sellStep_trades_shape (ss? : Option Strategy) (rate : ℚ) (d sym : String)
    (bar : Bar) (st : EngineState) :
    ∃ ts, (sellStep ss? rate d sym bar st).trades = st.trades ++ ts ∧ ts.length ≤ 1
      ∧ ∀ t ∈ ts, t.action = "sell" ∧ t.symbol = sym ∧ t.trade_date = d := by
  cases ss? with
  | none => exact ⟨[], by simp [sellStep_none]⟩
  | some ss =>
    rcases sellStep_cases ss rate d sym bar st with heq | ⟨pos, hl, hq, hss⟩
    · exact ⟨[], by simp [heq]⟩
    · rw [sellStep_executed ss rate d sym bar st pos hl hq hss]
      exact ⟨[_], rfl, by simp, by simp⟩

theorem stepSymbol_trades_shape (bs? ss? : Option Strategy) (rate : ℚ) (d : String)
    (r : String × Bar) (st : EngineState) :
    ∃ ts, (stepSymbol bs? ss? rate d r st).trades = st.trades ++ ts
      ∧ ∀ t ∈ ts, t.symbol = r.1 ∧ t.trade_date = d := by
  obtain ⟨bts, hb, _, hbP⟩ := buyStep_trades_shape bs? rate d r.1 r.2 st
  obtain ⟨sts, hs, _, hsP⟩ :=
    sellStep_trades_shape ss? rate d r.1 r.2 (buyStep bs? rate d r.1 r.2 st)
  refine ⟨bts ++ sts, ?_, ?_⟩
  · rw [stepSymbol, hs, hb, List.append_assoc]
  · intro t ht
    rcases List.mem_append.1 ht with ht' | ht'
    · exact ⟨(hbP t ht').2.1, (hbP t ht').2.2⟩
    · exact ⟨(hsP t ht').2.1, (hsP t ht').2.2⟩

theorem stepRows_trades_shape (bs? ss? : Option Strategy) (rate : ℚ) (d : String)
    (rows : List (String × Bar)) (st : EngineState) :
    ∃ ts, (stepRows bs? ss? rate d rows st).trades = st.trades ++ ts
      ∧ ∀ t ∈ ts, t.symbol ∈ rows.map Prod.fst := by
  induction rows generalizing st with
  | nil => exact ⟨[], by simp [stepRows_nil]⟩
  | cons r rs ih =>
    obtain ⟨ts1, h1, hP1⟩ := stepSymbol_trades_shape bs? ss? rate d r st
    obtain ⟨ts2, h2, hP2⟩ := ih (stepSymbol bs? ss? rate d r st)
    refine ⟨ts1 ++ ts2, ?_, ?_⟩
    · rw [stepRows_cons, h2, h1, List.append_assoc]
    · intro t ht
      rcases List.mem_append.1 ht with ht' | ht'
      · simp [(hP1 t ht').1]
      · simp [hP2 t ht']

/-! ### Positions of symbols not traded on a date are untouched -/

theorem buyStep_lookup_other (bs? : Option Strategy) (rate : ℚ) (d sym' : String)
    (bar : Bar) (st : EngineState) (sym : String) (h : sym ≠ sym') :
    lookupA (buyStep bs? rate d sym' bar st).positions sym = lookupA st.positions sym := by
  cases bs? with
  | none => rfl
  | some bs =>
    rcases buyStep_cases bs rate d sym' bar st with heq | ⟨h1, h2, h3, h4⟩
    · rw [heq]
    · rw [buyStep_executed bs rate d sym' bar st h1 h2 h3 h4]
      exact lookupA_setA_ne st.positions _ h

theorem sellStep_lookup_other (ss? : Option Strategy) (rate : ℚ) (d sym' : String)
    (bar : Bar) (st : EngineState) (sym : String) (h : sym ≠ sym') :
    lookupA (sellStep ss? rate d sym' bar st).positions sym = lookupA st.positions sym := by
  cases ss? with
  | none => rfl
  | some ss =>
    rcases sellStep_cases ss rate d sym' bar st with heq | ⟨pos, hl, hq, hss⟩
    · rw [heq]
    · rw [sellStep_executed ss rate d sym' bar st pos hl hq hss]
      exact lookupA_eraseA_ne st.positions h

theorem stepRows_lookup_other (bs? ss? : Option Strategy) (rate : ℚ) (d : String)
    (rows : List (String × Bar)) (st : EngineState) (sym : String)
    (h : sym ∉ rows.map Prod.fst) :
    lookupA (stepRows bs? ss? rate d rows st).positions sym = lookupA st.positions sym := by
  induction rows generalizing st with
  | nil => rfl
  | cons r rs ih =>
    have hne : sym ≠ r.1 := by
      intro he
      exact h (by simp [he])
    have hrest : sym ∉ rs.map Prod.fst := fun hm => h (by simp [hm])
    rw [stepRows_cons, ih _ hrest, stepSymbol,
      sellStep_lookup_other ss? rate d r.1 r.2 _ sym hne]
    exact buyStep_lookup_other bs? rate d r.1 r.2 st sym hne

/-! ### Valuation lemmas -/

theorem pricesOf_aux_nonneg :
    ∀ (rows : List (String × Bar)) (m : List (String × ℚ)),
      (∀ e ∈ m, 0 ≤ e.2) → (∀ r ∈ rows, 0 ≤ r.2.close) →
      ∀ e ∈ rows.foldl (fun m r => setA m r.1 r.2.close) m, 0 ≤ e.2 := by
  intro rows
  induction rows with
  | nil => intro m hm _ e he; exact hm e he
  | cons r rs ih =>
    intro m hm hr e he
    simp only [List.foldl_cons] at he
    refine ih _ ?_ (fun r' h' => hr r' (List.mem_cons_of_mem _ h')) e he
    intro e' he'
    rcases mem_setA he' with rfl | h'
    · exact hr r (List.mem_cons_self _ _)
    · exact hm e' h'

theorem pricesOf_nonneg (rows : List (String × Bar)) (hrows : rowsNonneg rows) :
    ∀ e ∈ pricesOf rows, 0 ≤ e.2 :=
  pricesOf_aux_nonneg rows [] (by simp) hrows

theorem stockValue_nonneg (ps : List (String × PositionInfo)) (prices : List (String × ℚ))
    (hq : ∀ e ∈ ps, 0 ≤ e.2.quantity) (hp : ∀ e ∈ prices, 0 ≤ e.2) :
    0 ≤ stockValue ps prices := by
  induction ps with
  | nil => simp [stockValue]
  | cons e ps ih =>
    have h2 := ih (fun e' he' => hq e' (List.mem_cons_of_mem _ he'))
    simp only [stockValue]
    cases hl : lookupA prices e.1 with
    | none => simpa using h2
    | some p =>
      have hq0 : (0 : ℚ) ≤ (e.2.quantity : ℚ) := by
        exact_mod_cast hq e (List.mem_cons_self _ _)
      exact add_nonneg (mul_nonneg hq0 (hp _ (lookupA_mem hl))) h2

/-- A position priced on no entry of the price map contributes nothing:
the mark-to-market sum equals the sum over the priced positions only. -/
theorem stockValue_filter (ps : List (String × PositionInfo)) (prices : List (String × ℚ)) :
    stockValue ps prices =
      stockValue (ps.filter (fun e => (lookupA prices e.1).isSome)) prices := by
  induction ps with
  | nil => rfl
  | cons e ps ih =>
    cases hl : lookupA prices e.1 with
    | none => simp [stockValue, hl, List.filter_cons, ih]
    | some p => simp [stockValue, hl, List.filter_cons, ih]

/-! ### The date loop: per-day facts -/

theorem execDates_nil (bs? ss? : Option Strategy) (rate init : ℚ)
    (st : EngineState) (prev : ℚ) :
    execDates bs? ss? rate init st prev [] = (st, []) := rfl

theorem one_add_div_nonneg {tv prev : ℚ} (htv : 0 ≤ tv) (hprev : 0 < prev) :
    0 ≤ 1 + (tv - prev) / prev := by
  have h : 1 + (tv - prev) / prev = tv / prev := by field_simp
  rw [h]
  exact div_nonneg htv hprev.le

theorem execDates_daily_facts (bs? ss? : Option Strategy) (rate init : ℚ)
    (data : List (String × List (String × Bar))) (st : EngineState) (prev : ℚ)
    (hrate : rate ≤ 1) (hdata : dataNonneg data) (h : Inv st) :
    ∀ dr ∈ (execDates bs? ss? rate init st prev data).2,
      0 ≤ dr.cash ∧ 0 ≤ dr.stock_value ∧ dr.total_value = dr.cash + dr.stock_value
      ∧ 0 ≤ 1 + dr.daily_return := by
  induction data generalizing st prev with
  | nil => intro dr hdr; simp [execDates] at hdr
  | cons g rest ih =>
    obtain ⟨d, rows⟩ := g
    intro dr hdr
    have hrowsN : rowsNonneg rows := hdata (d, rows) (List.mem_cons_self _ _)
    have hrest : dataNonneg rest := fun g' hg' => hdata g' (List.mem_cons_of_mem _ hg')
    have hInv' : Inv (stepRows bs? ss? rate d rows st) :=
      inv_stepRows bs? ss? rate d rows st hrate hrowsN h
    simp only [execDates] at hdr
    rcases List.mem_cons.1 hdr with rfl | hmem
    · refine ⟨hInv'.1, ?_, rfl, ?_⟩
      · exact stockValue_nonneg _ _ hInv'.2 (pricesOf_nonneg rows hrowsN)
      · have htv : 0 ≤ (stepRows bs? ss? rate d rows st).cash
            + stockValue (stepRows bs? ss? rate d rows st).positions (pricesOf rows) :=
          add_nonneg hInv'.1
            (stockValue_nonneg _ _ hInv'.2 (pricesOf_nonneg rows hrowsN))
        by_cases hp : 0 < prev
        · simp only [if_pos hp]
          exact one_add_div_nonneg htv hp
        · simp [hp]
    · exact ih _ _ hrest hInv' dr hmem

/-- The valuation record of date `i` is computed from the ledger state after
exactly the first `i+1` dates, with that date's own close prices. -/
theorem execDates_get (bs? ss? : Option Strategy) (rate init : ℚ) :
    ∀ (data : List (String × List (String × Bar))) (st : EngineState) (prev : ℚ)
      (i : ℕ) (dr : DailyReturn) (grp : String × List (String × Bar)),
      ((execDates bs? ss? rate init st prev data).2).get? i = some dr →
      data.get? i = some grp →
      dr.cash = (engAfter bs? ss? rate st (data.take (i + 1))).cash
      ∧ dr.stock_value =
          stockValue (engAfter bs? ss? rate st (data.take (i + 1))).positions
            (pricesOf grp.2)
      ∧ dr.total_value = dr.cash + dr.stock_value := by
  intro data
  induction data with
  | nil => intro st prev i dr grp h1 _; simp [execDates] at h1
  | cons g rest ih =>
    intro st prev i dr grp h1 h2
    obtain ⟨d, rows⟩ := g
    cases i with
    | zero =>
      simp only [execDates, List.get?] at h1
      simp only [List.get?] at h2
      obtain rfl := Option.some.inj h1
      obtain rfl := Option.some.inj h2
      exact ⟨rfl, rfl, rfl⟩
    | succ n =>
      simp only [execDates, List.get?] at h1
      simp only [List.get?] at h2
      simpa only [List.take_succ_cons, engAfter] using
        ih (stepRows bs? ss? rate d rows st) _ n dr grp h1 h2

/-! ### Drawdown bounds -/

theorem dd_bounds_aux (a b : ℚ) (ha : 0 ≤ a) (hab : a ≤ b) :
    -1 ≤ (a - b) / b ∧ (a - b) / b ≤ 0 := by
  rcases eq_or_lt_of_le (ha.trans hab) with hb | hb
  · have hb0 : b = 0 := hb.symm
    subst hb0
    have ha0 : a = 0 := le_antisymm hab ha
    subst ha0
    norm_num
  · constructor
    · rw [le_div_iff₀ hb]
      linarith
    · rw [div_nonpos_iff]
      right
      exact ⟨by linarith, hb.le⟩

theorem ddScan_mem_bounds :
    ∀ (rs : List ℚ) (c m : ℚ), 0 ≤ c → 0 ≤ m → (∀ r ∈ rs, 0 ≤ 1 + r) →
      ∀ x ∈ ddScan c m rs, -1 ≤ x ∧ x ≤ 0 := by
  intro rs
  induction rs with
  | nil => intro c m _ _ _ x hx; simp [ddScan] at hx
  | cons r rs ih =>
    intro c m hc hm hr x hx
    have hc' : 0 ≤ c * (1 + r) := mul_nonneg hc (hr r (List.mem_cons_self _ _))
    have hmax : c * (1 + r) ≤ max m (c * (1 + r)) := le_max_right _ _
    have hm' : 0 ≤ max m (c * (1 + r)) := le_trans hc' hmax
    simp only [ddScan] at hx
    rcases List.mem_cons.1 hx with rfl | hx'
    · exact dd_bounds_aux _ _ hc' hmax
    · exact ih _ _ hc' hm' (fun r' h' => hr r' (List.mem_cons_of_mem _ h')) x hx'

theorem drawdownList_mem_bounds (rs : List ℚ) (hr : ∀ r ∈ rs, 0 ≤ 1 + r) :
    ∀ x ∈ drawdownList rs, -1 ≤ x ∧ x ≤ 0 := by
  cases rs with
  | nil => intro x hx; simp [drawdownList] at hx
  | cons r rs =>
    intro x hx
    simp only [drawdownList] at hx
    rcases List.mem_cons.1 hx with rfl | hx'
    · norm_num
    · have hc : 0 ≤ 1 * (1 + r) := by
        simpa using hr r (List.mem_cons_self _ _)
      exact ddScan_mem_bounds rs _ _ hc hc
        (fun r' h' => hr r' (List.mem_cons_of_mem _ h')) x hx'

theorem listMin_aux_bounds :
    ∀ (xs : List ℚ) (acc : ℚ), -1 ≤ acc → acc ≤ 0 → (∀ x ∈ xs, -1 ≤ x ∧ x ≤ 0) →
      -1 ≤ xs.foldl min acc ∧ xs.foldl min acc ≤ 0 := by
  intro xs
  induction xs with
  | nil => intro acc h1 h2 _; exact ⟨h1, h2⟩
  | cons y ys ih =>
    intro acc h1 h2 h
    simp only [List.foldl_cons]
    have hy := h y (List.mem_cons_self _ _)
    exact ih (min acc y) (le_min h1 hy.1) (le_trans (min_le_left _ _) h2)
      (fun x hx => h x (List.mem_cons_of_mem _ hx))

theorem listMin_bounds (l : List ℚ) (h : ∀ x ∈ l, -1 ≤ x ∧ x ≤ 0) :
    -1 ≤ listMin l ∧ listMin l ≤ 0 := by
  cases l with
  | nil => norm_num [listMin]
  | cons x xs =>
    have hx := h x (List.mem_cons_self _ _)
    exact listMin_aux_bounds xs x hx.1 hx.2 (fun y hy => h y (List.mem_cons_of_mem _ hy))

theorem maxDrawdown_bounds (rs : List ℚ) (hr : ∀ r ∈ rs, 0 ≤ 1 + r) :
    -1 ≤ maxDrawdown rs ∧ maxDrawdown rs ≤ 0 :=
  listMin_bounds _ (drawdownList_mem_bounds rs hr)

/-! ### Projections of `calculateMetrics` -/

theorem calculateMetrics_daily_returns (r : BacktestResult) :
    (calculateMetrics r).daily_returns = r.daily_returns := by
  by_cases hd : r.daily_returns = [] <;> simp [calculateMetrics, hd]

theorem calculateMetrics_trades (r : BacktestResult) :
    (calculateMetrics r).trades = r.trades := by
  by_cases hd : r.daily_returns = [] <;> simp [calculateMetrics, hd]

theorem calculateMetrics_max_drawdown (r : BacktestResult) :
    (calculateMetrics r).summary.max_drawdown =
      if r.daily_returns = [] then r.summary.max_drawdown
      else maxDrawdown (r.daily_returns.map (fun d => d.daily_return)) := by
  by_cases hd : r.daily_returns = []
  · simp [calculateMetrics, hd]
  · simp only [calculateMetrics, if_neg hd]
    by_cases ht : r.trades = []
    · simp [ht]
    · simp only [if_neg ht]
      by_cases hp : 0 < (winStats r.trades).2
      · simp [hp]
      · simp [hp]

theorem winStats_nil : winStats [] = (0, 0) := rfl

theorem calculateMetrics_win_rate (r : BacktestResult)
    (hd : r.daily_returns ≠ []) (hp : 0 < (winStats r.trades).2) :
    (calculateMetrics r).summary.win_rate =
      ((winStats r.trades).1 : ℚ) / ((winStats r.trades).2 : ℚ) := by
  have ht : r.trades ≠ [] := by
    intro he
    rw [he, winStats_nil] at hp
    exact lt_irrefl 0 hp
  simp [calculateMetrics, hd, ht, hp]

/-! ### The shape of a full run -/

theorem execBacktest_eq (bs? ss? : Option Strategy)
    (data : List (String × List (String × Bar))) (sd ed : String) (rate : ℚ)
    (main : Strategy) (hm : mainOf bs? ss? = some main) :
    execBacktest bs? ss? data sd ed rate =
      some (calculateMetrics
        { summary :=
            { strategy_name := main.name, start_date := sd, end_date := ed,
              initial_cash := main.initial_cash,
              final_value :=
                match (execDates bs? ss? rate main.initial_cash
                    (initialEngineState main.initial_cash) main.initial_cash data).2.getLast? with
                | some d => d.total_value
                | none => main.initial_cash,
              total_return :=
                match (execDates bs? ss? rate main.initial_cash
                    (initialEngineState main.initial_cash) main.initial_cash data).2.getLast? with
                | some d => d.cumulative_return
                | none => 0,
              annualized_return := 0, max_drawdown := 0, volatility := 0,
              sharpe_ratio := 0,
              total_trades :=
                (execDates bs? ss? rate main.initial_cash
                  (initialEngineState main.initial_cash) main.initial_cash data).1.trades.length,
              win_rate := 0, avg_holding_days := 0, trading_days := data.length },
          trades :=
            (execDates bs? ss? rate main.initial_cash
              (initialEngineState main.initial_cash) main.initial_cash data).1.trades,
          daily_returns :=
            (execDates bs? ss? rate main.initial_cash
              (initialEngineState main.initial_cash) main.initial_cash data).2 }) := by
  simp [execBacktest, hm]

theorem eraseA_setA_of_none {α : Type} {l : List (String × α)} {k : String}
    (h : lookupA l k = none) (v : α) : eraseA (setA l k v) k = l := by
  rw [setA_of_lookupA_none h v, eraseA_append_of_lookupA_none h]

/-- Unconditionally, every emitted valuation record satisfies
total = cash + stock value (they are built that way). -/
theorem execDates_total_eq (bs? ss? : Option Strategy) (rate init : ℚ) :
    ∀ (data : List (String × List (String × Bar))) (st : EngineState) (prev : ℚ),
      ∀ dr ∈ (execDates bs? ss? rate init st prev data).2,
        dr.total_value = dr.cash + dr.stock_value := by
  intro data
  induction data with
  | nil => intro st prev dr hdr; simp [execDates] at hdr
  | cons g rest ih =>
    intro st prev dr hdr
    obtain ⟨d, rows⟩ := g
    simp only [execDates] at hdr
    rcases List.mem_cons.1 hdr with rfl | hmem
    · rfl
    · exact ih _ _ dr hmem

/-! ## The claims -/

/-- Claim C3 (confirmed): for every executed buy trade, cash afterwards equals
cash before minus quantity×price minus commission and is nonnegative; a
candidate buy whose total cost exceeds the available cash never executes (its
cost is bounded by the cash at execution); and over a whole run (commission
rate ≤ 1, nonnegative close prices, well-formed starting ledger) the recorded
cash is never negative. -/
theorem c3_buy_cash_accounting :
    (∀ (bs? : Option Strategy) (rate : ℚ) (d sym : String) (bar : Bar)
        (st : EngineState) (t : Trade),
        (buyStep bs? rate d sym bar st).trades = st.trades ++ [t] →
        (buyStep bs? rate d sym bar st).cash
            = st.cash - ((t.quantity : ℚ) * t.price + t.commission)
        ∧ 0 ≤ (buyStep bs? rate d sym bar st).cash
        ∧ (t.quantity : ℚ) * t.price + t.commission ≤ st.cash)
    ∧ (∀ (bs? ss? : Option Strategy) (rate init : ℚ)
        (data : List (String × List (String × Bar))) (st : EngineState) (prev : ℚ),
        rate ≤ 1 → dataNonneg data → Inv st →
        ∀ dr ∈ (execDates bs? ss? rate init st prev data).2, 0 ≤ dr.cash) := by
  constructor
  · intro bs? rate d sym bar st t h
    cases bs? with
    | none =>
      exfalso
      have := congrArg List.length h
      simp [buyStep_none] at this
    | some bs =>
      rcases buyStep_cases bs rate d sym bar st with heq | ⟨h1, h2, h3, h4⟩
      · exfalso
        rw [heq] at h
        have := congrArg List.length h
        simp at this
      · rw [buyStep_executed bs rate d sym bar st h1 h2 h3 h4] at h ⊢
        simp only [] at h
        have ht := List.append_cancel_left h
        simp only [List.cons.injEq, and_true] at ht
        subst ht
        refine ⟨rfl, ?_, ?_⟩
        · simp only []
          linarith
        · simpa using h4
  · intro bs? ss? rate init data st prev hrate hdata hinv dr hdr
    exact (execDates_daily_facts bs? ss? rate init data st prev hrate hdata hinv dr hdr).1

/-- Claim C3 witness: a concrete executed buy (100 shares at 10 from 100,000
cash, zero commission) and a concrete one-day run. -/
theorem c3_witness :
    ((buyStep (some (buyOnlyStrategy 100)) 0 "20240101" "000001" ⟨10⟩
        (initialEngineState 100000)).trades
      = (initialEngineState 100000).trades
        ++ [⟨"000001", "20240101", "buy", 100, 10, 1000, 0⟩])
    ∧ ((buyStep (some (buyOnlyStrategy 100)) 0 "20240101" "000001" ⟨10⟩
          (initialEngineState 100000)).cash
        = (initialEngineState 100000).cash - (((100 : ℤ) : ℚ) * 10 + 0)
      ∧ 0 ≤ (buyStep (some (buyOnlyStrategy 100)) 0 "20240101" "000001" ⟨10⟩
          (initialEngineState 100000)).cash
      ∧ ((100 : ℤ) : ℚ) * 10 + 0 ≤ (initialEngineState 100000).cash)
    ∧ ((0 : ℚ) ≤ 1 ∧ dataNonneg [("20240101", [("000001", ⟨10⟩)])]
        ∧ Inv (initialEngineState 100000))
    ∧ (∀ dr ∈ (execDates (some (buyOnlyStrategy 100)) none 0 100000
        (initialEngineState 100000) 100000 [("20240101", [("000001", ⟨10⟩)])]).2,
        0 ≤ dr.cash) :=
  ⟨by decide,
   c3_buy_cash_accounting.1 (some (buyOnlyStrategy 100)) 0 "20240101" "000001" ⟨10⟩
     (initialEngineState 100000) ⟨"000001", "20240101", "buy", 100, 10, 1000, 0⟩
     (by decide),
   ⟨by decide, by unfold dataNonneg rowsNonneg; decide, by unfold Inv; decide⟩,
   c3_buy_cash_accounting.2 (some (buyOnlyStrategy 100)) none 0 100000
     [("20240101", [("000001", ⟨10⟩)])] (initialEngineState 100000) 100000
     (by decide) (by unfold dataNonneg rowsNonneg; decide) (by unfold Inv; decide)⟩

/-- Claim C4 (confirmed): every executed sell liquidates the entire held
quantity at that bar's close, with commission = gross amount × commission
rate; afterwards the entry is removed (quantity before − sold quantity = 0,
never negative) and cash is credited quantity×price − commission.  The
`Nodup` hypothesis is the key-uniqueness every Python dict has. -/
theorem c4_sell_full_liquidation :
    ∀ (ss? : Option Strategy) (rate : ℚ) (d sym : String) (bar : Bar)
      (st : EngineState) (t : Trade),
      (st.positions.map Prod.fst).Nodup →
      (sellStep ss? rate d sym bar st).trades = st.trades ++ [t] →
      ∃ pos, lookupA st.positions sym = some pos ∧ 0 < pos.quantity
        ∧ t.action = "sell" ∧ t.symbol = sym ∧ t.quantity = pos.quantity
        ∧ t.price = bar.close ∧ t.amount = (pos.quantity : ℚ) * bar.close
        ∧ t.commission = t.amount * rate
        ∧ lookupA (sellStep ss? rate d sym bar st).positions sym = none
        ∧ pos.quantity - t.quantity = 0
        ∧ (sellStep ss? rate d sym bar st).cash
            = st.cash + ((t.quantity : ℚ) * t.price - t.commission) := by
  intro ss? rate d sym bar st t hnod h
  cases ss? with
  | none =>
    exfalso
    have := congrArg List.length h
    simp [sellStep_none] at this
  | some ss =>
    rcases sellStep_cases ss rate d sym bar st with heq | ⟨pos, hl, hq, hss⟩
    · exfalso
      rw [heq] at h
      have := congrArg List.length h
      simp at this
    · rw [sellStep_executed ss rate d sym bar st pos hl hq hss] at h ⊢
      simp only [] at h
      have ht := List.append_cancel_left h
      simp only [List.cons.injEq, and_true] at ht
      subst ht
      exact ⟨pos, hl, hq, rfl, rfl, rfl, rfl, rfl, rfl,
        lookupA_eraseA_self hnod, by ring, rfl⟩

/-- Claim C4 witness: selling a held position of 100 shares at 12. -/
theorem c4_witness :
    ((([("000001", (⟨"000001", 100, 10, 0⟩ : PositionInfo))]).map Prod.fst).Nodup
      ∧ (sellStep (some (alwaysStrategy 100)) 0 "20240102" "000001" ⟨12⟩
          ⟨5000, [("000001", ⟨"000001", 100, 10, 0⟩)], []⟩).trades
        = (⟨5000, [("000001", ⟨"000001", 100, 10, 0⟩)], []⟩ : EngineState).trades
          ++ [⟨"000001", "20240102", "sell", 100, 12, 1200, 0⟩])
    ∧ ∃ pos, lookupA (⟨5000, [("000001", ⟨"000001", 100, 10, 0⟩)], []⟩
          : EngineState).positions "000001" = some pos
        ∧ 0 < pos.quantity
        ∧ (⟨"000001", "20240102", "sell", 100, 12, 1200, 0⟩ : Trade).action = "sell"
        ∧ (⟨"000001", "20240102", "sell", 100, 12, 1200, 0⟩ : Trade).symbol = "000001"
        ∧ (⟨"000001", "20240102", "sell", 100, 12, 1200, 0⟩ : Trade).quantity = pos.quantity
        ∧ (⟨"000001", "20240102", "sell", 100, 12, 1200, 0⟩ : Trade).price = Bar.close ⟨12⟩
        ∧ (⟨"000001", "20240102", "sell", 100, 12, 1200, 0⟩ : Trade).amount
            = (pos.quantity : ℚ) * Bar.close ⟨12⟩
        ∧ (⟨"000001", "20240102", "sell", 100, 12, 1200, 0⟩ : Trade).commission
            = (⟨"000001", "20240102", "sell", 100, 12, 1200, 0⟩ : Trade).amount * 0
        ∧ lookupA (sellStep (some (alwaysStrategy 100)) 0 "20240102" "000001" ⟨12⟩
            ⟨5000, [("000001", ⟨"000001", 100, 10, 0⟩)], []⟩).positions "000001" = none
        ∧ pos.quantity - (⟨"000001", "20240102", "sell", 100, 12, 1200, 0⟩ : Trade).quantity = 0
        ∧ (sellStep (some (alwaysStrategy 100)) 0 "20240102" "000001" ⟨12⟩
            ⟨5000, [("000001", ⟨"000001", 100, 10, 0⟩)], []⟩).cash
          = (⟨5000, [("000001", ⟨"000001", 100, 10, 0⟩)], []⟩ : EngineState).cash
            + (((⟨"000001", "20240102", "sell", 100, 12, 1200, 0⟩ : Trade).quantity : ℚ)
                * (⟨"000001", "20240102", "sell", 100, 12, 1200, 0⟩ : Trade).price
              - (⟨"000001", "20240102", "sell", 100, 12, 1200, 0⟩ : Trade).commission) :=
  ⟨⟨by decide, by decide⟩,
   c4_sell_full_liquidation (some (alwaysStrategy 100)) 0 "20240102" "000001" ⟨12⟩
     ⟨5000, [("000001", ⟨"000001", 100, 10, 0⟩)], []⟩
     ⟨"000001", "20240102", "sell", 100, 12, 1200, 0⟩ (by decide) (by decide)⟩

/-- Claim C1 (corrected): within a date the engine evaluates the BUY branch
first and the SELL branch second for each symbol — the reverse of the claimed
sell-before-buy order.  Per symbol and date the appended trades are at most
one buy followed by at most one sell, so a strategy CAN enter and then exit
the same symbol on the same bar, and can never exit-then-re-enter it. -/
theorem c1_buy_evaluated_before_sell :
    ∀ (bs? ss? : Option Strategy) (rate : ℚ) (d : String) (r : String × Bar)
      (st : EngineState),
      ∃ bts sts,
        (stepSymbol bs? ss? rate d r st).trades = st.trades ++ bts ++ sts
        ∧ bts.length ≤ 1 ∧ sts.length ≤ 1
        ∧ (∀ t ∈ bts, t.action = "buy" ∧ t.symbol = r.1 ∧ t.trade_date = d)
        ∧ (∀ t ∈ sts, t.action = "sell" ∧ t.symbol = r.1 ∧ t.trade_date = d) := by
  intro bs? ss? rate d r st
  obtain ⟨bts, hb, hbl, hbP⟩ := buyStep_trades_shape bs? rate d r.1 r.2 st
  obtain ⟨sts, hs, hsl, hsP⟩ :=
    sellStep_trades_shape ss? rate d r.1 r.2 (buyStep bs? rate d r.1 r.2 st)
  refine ⟨bts, sts, ?_, hbl, hsl, hbP, hsP⟩
  rw [stepSymbol, hs, hb]

/-- Claim C1 counterexample: with a combined always-buy/always-sell strategy
on a single date, starting flat, the engine books a buy and then a sell of
the same symbol on the same bar — the sell liquidates the shares bought that
very bar.  If the sell signal were evaluated before the buy for the same
symbol, the sell branch would find no position and no sell could be booked
that day. -/
theorem c1_counterexample :
    (execBacktest (some (alwaysStrategy 100)) (some (alwaysStrategy 100))
        [("20240101", [("000001", ⟨10⟩)])] "20240101" "20240101" 0).map
      (fun r => r.trades)
    = some [ ⟨"000001", "20240101", "buy", 100, 10, 1000, 0⟩,
             ⟨"000001", "20240101", "sell", 100, 10, 1000, 0⟩ ] := by decide

/-- Claim C2 (corrected): the buy branch does not check the position state at
all; when its guards hold for a symbol that is already held, the buy executes
anyway, adding the bought quantity to the open position and re-averaging the
cost basis. -/
theorem c2_buy_into_held :
    ∀ (bs : Strategy) (rate : ℚ) (d sym : String) (bar : Bar) (st : EngineState)
      (pos : PositionInfo),
      lookupA st.positions sym = some pos → 0 ≤ pos.quantity →
      1000 < st.cash → bs.should_buy sym bar = true →
      0 < bs.get_position_size st.cash sym bar.close →
      (bs.get_position_size st.cash sym bar.close : ℚ) * bar.close
        + (bs.get_position_size st.cash sym bar.close : ℚ) * bar.close * rate ≤ st.cash →
      (buyStep (some bs) rate d sym bar st).trades
          = st.trades ++ [⟨sym, d, "buy", bs.get_position_size st.cash sym bar.close,
              bar.close, (bs.get_position_size st.cash sym bar.close : ℚ) * bar.close,
              (bs.get_position_size st.cash sym bar.close : ℚ) * bar.close * rate⟩]
      ∧ lookupA (buyStep (some bs) rate d sym bar st).positions sym
          = some { pos with
              quantity := pos.quantity + bs.get_position_size st.cash sym bar.close,
              avg_price := ((pos.quantity : ℚ) * pos.avg_price
                  + (bs.get_position_size st.cash sym bar.close : ℚ) * bar.close)
                / ((pos.quantity + bs.get_position_size st.cash sym bar.close : ℤ) : ℚ) } := by
  intro bs rate d sym bar st pos hl hq0 h1 h2 h3 h4
  rw [buyStep_executed bs rate d sym bar st h1 h2 h3 h4]
  refine ⟨rfl, ?_⟩
  simp only [hl, Option.getD_some]
  rw [if_pos (by omega : 0 < pos.quantity + bs.get_position_size st.cash sym bar.close)]
  exact lookupA_setA_self st.positions sym _

/-- Claim C2 witness: buying 100 more shares of a symbol already held
(100 shares at cost 10), at price 20 with zero commission. -/
theorem c2_witness :
    (lookupA (⟨50000, [("000001", ⟨"000001", 100, 10, 0⟩)], []⟩
          : EngineState).positions "000001" = some ⟨"000001", 100, 10, 0⟩
      ∧ (0 : ℤ) ≤ 100 ∧ (1000 : ℚ) < 50000
      ∧ (buyOnlyStrategy 100).should_buy "000001" ⟨20⟩ = true
      ∧ (0 : ℤ) < (buyOnlyStrategy 100).get_position_size 50000 "000001" 20
      ∧ ((buyOnlyStrategy 100).get_position_size 50000 "000001" 20 : ℚ) * 20
          + ((buyOnlyStrategy 100).get_position_size 50000 "000001" 20 : ℚ) * 20 * 0
        ≤ 50000)
    ∧ (buyStep (some (buyOnlyStrategy 100)) 0 "20240105" "000001" ⟨20⟩
        ⟨50000, [("000001", ⟨"000001", 100, 10, 0⟩)], []⟩).trades
      = (⟨50000, [("000001", ⟨"000001", 100, 10, 0⟩)], []⟩ : EngineState).trades
        ++ [⟨"000001", "20240105", "buy",
            (buyOnlyStrategy 100).get_position_size 50000 "000001" 20, 20,
            ((buyOnlyStrategy 100).get_position_size 50000 "000001" 20 : ℚ) * 20,
            ((buyOnlyStrategy 100).get_position_size 50000 "000001" 20 : ℚ) * 20 * 0⟩]
    ∧ lookupA (buyStep (some (buyOnlyStrategy 100)) 0 "20240105" "000001" ⟨20⟩
        ⟨50000, [("000001", ⟨"000001", 100, 10, 0⟩)], []⟩).positions "000001"
      = some { (⟨"000001", 100, 10, 0⟩ : PositionInfo) with
          quantity := (⟨"000001", 100, 10, 0⟩ : PositionInfo).quantity
            + (buyOnlyStrategy 100).get_position_size 50000 "000001" 20,
          avg_price := (((⟨"000001", 100, 10, 0⟩ : PositionInfo).quantity : ℚ)
              * (⟨"000001", 100, 10, 0⟩ : PositionInfo).avg_price
              + ((buyOnlyStrategy 100).get_position_size 50000 "000001" 20 : ℚ) * 20)
            / (((⟨"000001", 100, 10, 0⟩ : PositionInfo).quantity
              + (buyOnlyStrategy 100).get_position_size 50000 "000001" 20 : ℤ) : ℚ) } := by
  refine ⟨⟨by decide, by decide, by decide, by decide, by decide, by decide⟩, ?_⟩
  exact c2_buy_into_held (buyOnlyStrategy 100) 0 "20240105" "000001" ⟨20⟩
    ⟨50000, [("000001", ⟨"000001", 100, 10, 0⟩)], []⟩ ⟨"000001", 100, 10, 0⟩
    (by decide) (by decide) (by decide) (by decide) (by decide) (by decide)

/-- Claim C2 counterexample: the simulator DOES buy a symbol that is already
held.  Day one leaves an open position of 100 shares; the full run books a
second buy of the same symbol on day two while no sell ever occurs (the
strategy is buy-only), so at the moment of the second buy the symbol was
held. -/
theorem c2_counterexample :
    (lookupA (stepRows (some (buyOnlyStrategy 100)) none 0 "20240101"
        [("000001", ⟨10⟩)] (initialEngineState 100000)).positions "000001").map
      (fun p => p.quantity) = some 100
    ∧ (execBacktest (some (buyOnlyStrategy 100)) none
        [("20240101", [("000001", ⟨10⟩)]), ("20240102", [("000001", ⟨10⟩)])]
        "20240101" "20240102" 0).map (fun r => r.trades)
      = some [ ⟨"000001", "20240101", "buy", 100, 10, 1000, 0⟩,
               ⟨"000001", "20240102", "buy", 100, 10, 1000, 0⟩ ] := by decide

/-- Claim C6 (confirmed): buying `q` shares and then selling the same `q`
shares of the same symbol at the same price with zero commission rate — which
the engine performs on one bar when both signals fire from a flat position —
leaves cash exactly unchanged, leaves the positions map unchanged, and
realizes zero P/L: the sell's net proceeds minus the buy's total cost is 0. -/
theorem c6_round_trip_zero_commission :
    ∀ (d sym : String) (q : ℤ) (p : ℚ) (st : EngineState),
      lookupA st.positions sym = none → 0 < q → 1000 < st.cash →
      (q : ℚ) * p ≤ st.cash →
      (stepSymbol (some (alwaysStrategy q)) (some (alwaysStrategy q)) 0 d
          (sym, ⟨p⟩) st).cash = st.cash
      ∧ (stepSymbol (some (alwaysStrategy q)) (some (alwaysStrategy q)) 0 d
          (sym, ⟨p⟩) st).positions = st.positions
      ∧ (stepSymbol (some (alwaysStrategy q)) (some (alwaysStrategy q)) 0 d
          (sym, ⟨p⟩) st).trades
          = st.trades ++ [⟨sym, d, "buy", q, p, (q : ℚ) * p, 0⟩,
              ⟨sym, d, "sell", q, p, (q : ℚ) * p, 0⟩]
      ∧ ∀ tb tsl : Trade,
          (stepSymbol (some (alwaysStrategy q)) (some (alwaysStrategy q)) 0 d
              (sym, ⟨p⟩) st).trades = st.trades ++ [tb, tsl] →
          (tsl.amount - tsl.commission) - (tb.amount + tb.commission) = 0 := by
  intro d sym q p st hl hq h1 hcost
  have h4 : ((alwaysStrategy q).get_position_size st.cash sym (Bar.close ⟨p⟩) : ℚ)
        * (Bar.close ⟨p⟩)
      + ((alwaysStrategy q).get_position_size st.cash sym (Bar.close ⟨p⟩) : ℚ)
        * (Bar.close ⟨p⟩) * 0 ≤ st.cash := by
    simpa [alwaysStrategy] using hcost
  have hq1 : 0 < ((lookupA st.positions sym).getD (PositionInfo.empty sym)).quantity
      + (alwaysStrategy q).get_position_size st.cash sym (Bar.close ⟨p⟩) := by
    rw [hl]
    simp only [Option.getD_none, PositionInfo.empty, alwaysStrategy]
    omega
  have htr :
      (stepSymbol (some (alwaysStrategy q)) (some (alwaysStrategy q)) 0 d
          (sym, ⟨p⟩) st)
        = { cash := st.cash,
            positions := st.positions,
            trades := st.trades ++ [⟨sym, d, "buy", q, p, (q : ℚ) * p, 0⟩,
              ⟨sym, d, "sell", q, p, (q : ℚ) * p, 0⟩] } := by
    rw [stepSymbol]
    simp only []
    rw [buyStep_executed (alwaysStrategy q) 0 d sym ⟨p⟩ st h1 rfl hq h4]
    rw [sellStep_executed _ _ _ _ _ _ _
      (lookupA_setA_self st.positions sym _) hq1 rfl]
    simp only [EngineState.mk.injEq]
    refine ⟨?_, eraseA_setA_of_none hl _, ?_⟩
    · simp only [alwaysStrategy, hl, Option.getD_none, PositionInfo.empty,
        mul_zero, add_zero, sub_zero]
      push_cast
      ring
    · simp only [alwaysStrategy, hl, Option.getD_none, PositionInfo.empty,
        mul_zero, List.append_assoc, List.cons_append, List.nil_append,
        Trade.mk.injEq]
      push_cast
      simp
  refine ⟨by rw [htr], by rw [htr], by rw [htr], ?_⟩
  intro tb tsl h
  rw [htr] at h
  simp only [] at h
  have h2 := List.append_cancel_left h
  simp only [List.cons.injEq, and_true] at h2
  obtain ⟨rfl, rfl, -⟩ := h2
  simp

/-- Claim C6 witness: a 100-share round trip at price 10 from 100,000 cash. -/
theorem c6_witness :
    (lookupA (initialEngineState 100000).positions "000001" = none
      ∧ (0 : ℤ) < 100 ∧ (1000 : ℚ) < (initialEngineState 100000).cash
      ∧ ((100 : ℤ) : ℚ) * 10 ≤ (initialEngineState 100000).cash)
    ∧ ((stepSymbol (some (alwaysStrategy 100)) (some (alwaysStrategy 100)) 0 "20240101"
          ("000001", ⟨10⟩) (initialEngineState 100000)).cash
        = (initialEngineState 100000).cash
      ∧ (stepSymbol (some (alwaysStrategy 100)) (some (alwaysStrategy 100)) 0 "20240101"
          ("000001", ⟨10⟩) (initialEngineState 100000)).positions
        = (initialEngineState 100000).positions
      ∧ (stepSymbol (some (alwaysStrategy 100)) (some (alwaysStrategy 100)) 0 "20240101"
          ("000001", ⟨10⟩) (initialEngineState 100000)).trades
        = (initialEngineState 100000).trades
          ++ [⟨"000001", "20240101", "buy", 100, 10, ((100 : ℤ) : ℚ) * 10, 0⟩,
              ⟨"000001", "20240101", "sell", 100, 10, ((100 : ℤ) : ℚ) * 10, 0⟩]
      ∧ ∀ tb tsl : Trade,
          (stepSymbol (some (alwaysStrategy 100)) (some (alwaysStrategy 100)) 0 "20240101"
              ("000001", ⟨10⟩) (initialEngineState 100000)).trades
            = (initialEngineState 100000).trades ++ [tb, tsl] →
          (tsl.amount - tsl.commission) - (tb.amount + tb.commission) = 0) :=
  ⟨⟨by decide, by decide, by decide, by decide⟩,
   c6_round_trip_zero_commission "20240101" "000001" 100 10 (initialEngineState 100000)
     (by decide) (by decide) (by decide) (by decide)⟩

/-- Claim C8 (corrected): `update_position` handles an oversized sell request
(quantity greater than held) by silently doing nothing: the state is returned
untouched — no exception is raised and the request is not clamped to the held
quantity either. -/
theorem c8_oversized_sell_ignored :
    ∀ (st : StratState) (sym : String) (q : ℤ) (p : ℚ) (pos : PositionInfo),
      lookupA st.positions sym = some pos → pos.quantity < q →
      update_position st sym q p "sell" = st := by
  intro st sym q p pos hl hlt
  simp only [update_position, hl, Option.isSome_some, if_true, Option.getD_some]
  rw [if_neg (by omega : ¬ q ≤ pos.quantity),
    if_neg (by decide : ¬ ("sell" : String) = "buy")]

/-- Claim C8 counterexample: a request to sell 90 shares with only 60 held is
neither rejected with an error nor clamped to 60: `update_position` returns
normally with the position and the cash exactly as they were. -/
theorem c8_counterexample :
    update_position ⟨[("000001", ⟨"000001", 60, 9, 0⟩)], 7000⟩ "000001" 90 9 "sell"
      = ⟨[("000001", ⟨"000001", 60, 9, 0⟩)], 7000⟩ := by decide

/-- Claim C8 witness: the amended no-op behaviour at a concrete oversized
sell (200 requested, 100 held). -/
theorem c8_witness :
    (lookupA ([("000001", (⟨"000001", 100, 10, 0⟩ : PositionInfo))]) "000001"
        = some ⟨"000001", 100, 10, 0⟩
      ∧ (⟨"000001", 100, 10, 0⟩ : PositionInfo).quantity < 200)
    ∧ update_position ⟨[("000001", ⟨"000001", 100, 10, 0⟩)], 5000⟩ "000001" 200 10 "sell"
        = ⟨[("000001", ⟨"000001", 100, 10, 0⟩)], 5000⟩ :=
  ⟨⟨by decide, by decide⟩,
   c8_oversized_sell_ignored ⟨[("000001", ⟨"000001", 100, 10, 0⟩)], 5000⟩ "000001" 200 10
     ⟨"000001", 100, 10, 0⟩ (by decide) (by decide)⟩

/-- Claim C10 (confirmed): the missing-price policy is exclusion, applied
consistently: (i) a held symbol with no row on a date is untouched by that
date's trading loop — its entry (quantity, average cost, everything) is
exactly what it was; (ii) the stock-value sum equals the sum over the priced
positions only, so an unpriced position contributes zero while staying open;
(iii) every trade appended on a date belongs to one of that date's row
symbols, so no sell is ever forced for a symbol without a bar.  The price map
a valuation uses is built from that date's rows alone (`pricesOf`), so no
stale price is ever carried forward. -/
theorem c10_missing_price_exclusion :
    (∀ (bs? ss? : Option Strategy) (rate : ℚ) (d : String)
        (rows : List (String × Bar)) (st : EngineState) (sym : String),
        sym ∉ rows.map Prod.fst →
        lookupA (stepRows bs? ss? rate d rows st).positions sym
          = lookupA st.positions sym)
    ∧ (∀ (ps : List (String × PositionInfo)) (prices : List (String × ℚ)),
        stockValue ps prices
          = stockValue (ps.filter (fun e => (lookupA prices e.1).isSome)) prices)
    ∧ (∀ (bs? ss? : Option Strategy) (rate : ℚ) (d : String)
        (rows : List (String × Bar)) (st : EngineState),
        ∃ ts, (stepRows bs? ss? rate d rows st).trades = st.trades ++ ts
          ∧ ∀ t ∈ ts, t.symbol ∈ rows.map Prod.fst) :=
  ⟨fun bs? ss? rate d rows st sym h => stepRows_lookup_other bs? ss? rate d rows st sym h,
   fun ps prices => stockValue_filter ps prices,
   fun bs? ss? rate d rows st => stepRows_trades_shape bs? ss? rate d rows st⟩

/-- Claim C10 witness: a date trading only 000001 leaves the held 000002
untouched, 000002 contributes nothing to that date's stock value, and all
trades of the date are in 000001. -/
theorem c10_witness :
    (("000002" : String) ∉ ([("000001", (⟨10⟩ : Bar))].map Prod.fst)
      ∧ lookupA (stepRows (some (buyOnlyStrategy 100)) none 0 "20240101"
          [("000001", ⟨10⟩)]
          ⟨100000, [("000002", ⟨"000002", 50, 8, 0⟩)], []⟩).positions "000002"
        = lookupA (⟨100000, [("000002", ⟨"000002", 50, 8, 0⟩)], []⟩
            : EngineState).positions "000002")
    ∧ stockValue [("000002", ⟨"000002", 50, 8, 0⟩)] (pricesOf [("000001", ⟨10⟩)])
        = stockValue (([("000002", (⟨"000002", 50, 8, 0⟩ : PositionInfo))]).filter
            (fun e => (lookupA (pricesOf [("000001", ⟨10⟩)]) e.1).isSome))
          (pricesOf [("000001", ⟨10⟩)])
    ∧ ∃ ts, (stepRows (some (buyOnlyStrategy 100)) none 0 "20240101"
          [("000001", ⟨10⟩)]
          ⟨100000, [("000002", ⟨"000002", 50, 8, 0⟩)], []⟩).trades
        = (⟨100000, [("000002", ⟨"000002", 50, 8, 0⟩)], []⟩ : EngineState).trades ++ ts
        ∧ ∀ t ∈ ts, t.symbol ∈ [("000001", (⟨10⟩ : Bar))].map Prod.fst :=
  ⟨⟨by decide,
    c10_missing_price_exclusion.1 (some (buyOnlyStrategy 100)) none 0 "20240101"
      [("000001", ⟨10⟩)] ⟨100000, [("000002", ⟨"000002", 50, 8, 0⟩)], []⟩ "000002"
      (by decide)⟩,
   c10_missing_price_exclusion.2.1 [("000002", ⟨"000002", 50, 8, 0⟩)]
     (pricesOf [("000001", ⟨10⟩)]),
   c10_missing_price_exclusion.2.2 (some (buyOnlyStrategy 100)) none 0 "20240101"
     [("000001", ⟨10⟩)] ⟨100000, [("000002", ⟨"000002", 50, 8, 0⟩)], []⟩⟩

/-- Claim C5 (confirmed): every emitted DailyValuation satisfies
total = cash + stock value, and the record of date `i` is recomputed from the
ledger state after exactly the first `i+1` dates together with that date's
own close prices — it is never obtained by adding anything to the previous
day's total. -/
theorem c5_daily_valuation_recomputed :
    (∀ (bs? ss? : Option Strategy) (rate init : ℚ)
        (data : List (String × List (String × Bar))) (st : EngineState) (prev : ℚ),
        ∀ dr ∈ (execDates bs? ss? rate init st prev data).2,
          dr.total_value = dr.cash + dr.stock_value)
    ∧ (∀ (bs? ss? : Option Strategy) (rate init : ℚ)
        (data : List (String × List (String × Bar))) (st : EngineState) (prev : ℚ)
        (i : ℕ) (dr : DailyReturn) (grp : String × List (String × Bar)),
        ((execDates bs? ss? rate init st prev data).2).get? i = some dr →
        data.get? i = some grp →
        dr.cash = (engAfter bs? ss? rate st (data.take (i + 1))).cash
        ∧ dr.stock_value =
            stockValue (engAfter bs? ss? rate st (data.take (i + 1))).positions
              (pricesOf grp.2)
        ∧ dr.total_value = dr.cash + dr.stock_value) :=
  ⟨fun bs? ss? rate init data st prev =>
      execDates_total_eq bs? ss? rate init data st prev,
   fun bs? ss? rate init data st prev i dr grp h1 h2 =>
      execDates_get bs? ss? rate init data st prev i dr grp h1 h2⟩

/-- Claim C5 witness: the single valuation record of a one-date run with no
strategies attached. -/
theorem c5_witness :
    ((⟨"20240101", 100000, 100000, 0, 0, 0, 0⟩ : DailyReturn)
        ∈ (execDates none none 0 100000 (initialEngineState 100000) 100000
            [("20240101", [("000001", ⟨10⟩)])]).2
      ∧ (⟨"20240101", 100000, 100000, 0, 0, 0, 0⟩ : DailyReturn).total_value
        = (⟨"20240101", 100000, 100000, 0, 0, 0, 0⟩ : DailyReturn).cash
          + (⟨"20240101", 100000, 100000, 0, 0, 0, 0⟩ : DailyReturn).stock_value)
    ∧ ((execDates none none 0 100000 (initialEngineState 100000) 100000
          [("20240101", [("000001", ⟨10⟩)])]).2.get? 0
        = some ⟨"20240101", 100000, 100000, 0, 0, 0, 0⟩
      ∧ [("20240101", [("000001", (⟨10⟩ : Bar))])].get? 0
        = some ("20240101", [("000001", ⟨10⟩)])
      ∧ ((⟨"20240101", 100000, 100000, 0, 0, 0, 0⟩ : DailyReturn).cash
          = (engAfter none none 0 (initialEngineState 100000)
              ([("20240101", [("000001", (⟨10⟩ : Bar))])].take 1)).cash
        ∧ (⟨"20240101", 100000, 100000, 0, 0, 0, 0⟩ : DailyReturn).stock_value
          = stockValue (engAfter none none 0 (initialEngineState 100000)
              ([("20240101", [("000001", (⟨10⟩ : Bar))])].take 1)).positions
              (pricesOf [("000001", ⟨10⟩)])
        ∧ (⟨"20240101", 100000, 100000, 0, 0, 0, 0⟩ : DailyReturn).total_value
          = (⟨"20240101", 100000, 100000, 0, 0, 0, 0⟩ : DailyReturn).cash
            + (⟨"20240101", 100000, 100000, 0, 0, 0, 0⟩ : DailyReturn).stock_value)) :=
  ⟨⟨by decide,
    c5_daily_valuation_recomputed.1 none none 0 100000
      [("20240101", [("000001", ⟨10⟩)])] (initialEngineState 100000) 100000
      ⟨"20240101", 100000, 100000, 0, 0, 0, 0⟩ (by decide)⟩,
   by decide, by decide,
   c5_daily_valuation_recomputed.2 none none 0 100000
     [("20240101", [("000001", ⟨10⟩)])] (initialEngineState 100000) 100000 0
     ⟨"20240101", 100000, 100000, 0, 0, 0, 0⟩ ("20240101", [("000001", ⟨10⟩)])
     (by decide) (by decide)⟩

/-- Claim C9 (confirmed): for any run whose bar prices are all nonnegative
(with a commission rate in [0,1] and a nonnegative starting cash), the
reported maximum drawdown — running product of (1+daily return), running
maximum, minimum of (cumulative − runningMax)/runningMax — lies in [−1, 0]. -/
theorem c9_max_drawdown_bounds :
    ∀ (bs? ss? : Option Strategy) (data : List (String × List (String × Bar)))
      (sd ed : String) (rate : ℚ) (res : BacktestResult),
      0 ≤ rate → rate ≤ 1 → dataNonneg data → 0 ≤ initOf bs? ss? →
      execBacktest bs? ss? data sd ed rate = some res →
      -1 ≤ res.summary.max_drawdown ∧ res.summary.max_drawdown ≤ 0 := by
  intro bs? ss? data sd ed rate res h0 h1 hd hi hrun
  cases hm : mainOf bs? ss? with
  | none => simp [execBacktest, hm] at hrun
  | some main =>
    rw [execBacktest_eq bs? ss? data sd ed rate main hm] at hrun
    have hres := (Option.some.inj hrun).symm
    subst hres
    have hinit : 0 ≤ main.initial_cash := by
      have he : initOf bs? ss? = main.initial_cash := by rw [initOf, hm]
      rwa [he] at hi
    have hInv : Inv (initialEngineState main.initial_cash) := by
      refine ⟨hinit, ?_⟩
      intro e he
      simp [initialEngineState] at he
    rw [calculateMetrics_max_drawdown]
    by_cases hdly : (execDates bs? ss? rate main.initial_cash
        (initialEngineState main.initial_cash) main.initial_cash data).2 = []
    · simp only [hdly]
      norm_num
    · simp only [hdly, if_neg, if_false]
      refine maxDrawdown_bounds _ ?_
      intro r hr
      obtain ⟨dr, hdr, rfl⟩ := List.mem_map.1 hr
      exact (execDates_daily_facts bs? ss? rate main.initial_cash data
        (initialEngineState main.initial_cash) main.initial_cash h1 hd hInv dr hdr).2.2.2

/-- Claim C9 witness: the empty-data run, whose summary keeps the initial
max drawdown 0 ∈ [−1, 0]. -/
theorem c9_witness :
    ((0 : ℚ) ≤ 0 ∧ (0 : ℚ) ≤ 1
      ∧ dataNonneg ([] : List (String × List (String × Bar)))
      ∧ 0 ≤ initOf (some (alwaysStrategy 100)) none
      ∧ execBacktest (some (alwaysStrategy 100)) none [] "20240101" "20240101" 0
        = some ⟨⟨"always", "20240101", "20240101", 100000, 100000, 0, 0, 0, 0, 0,
            0, 0, 0, 0⟩, [], []⟩)
    ∧ (-1 ≤ (⟨⟨"always", "20240101", "20240101", 100000, 100000, 0, 0, 0, 0, 0,
          0, 0, 0, 0⟩, [], []⟩ : BacktestResult).summary.max_drawdown
      ∧ (⟨⟨"always", "20240101", "20240101", 100000, 100000, 0, 0, 0, 0, 0,
          0, 0, 0, 0⟩, [], []⟩ : BacktestResult).summary.max_drawdown ≤ 0) :=
  ⟨⟨by decide, by decide, by unfold dataNonneg rowsNonneg; decide, by decide, by decide⟩,
   c9_max_drawdown_bounds (some (alwaysStrategy 100)) none [] "20240101" "20240101" 0
     ⟨⟨"always", "20240101", "20240101", 100000, 100000, 0, 0, 0, 0, 0, 0, 0, 0, 0⟩,
       [], []⟩
     (by decide) (by decide) (by unfold dataNonneg rowsNonneg; decide) (by decide) (by decide)⟩

/-- Claim C7 (corrected): the pairing loop keeps as cost basis the price of
the buy that OPENED the position (a buy arriving at position 0 resets the
basis; later buys change only the quantity, not the basis — not a running
weighted average); a sell is counted toward the denominator exactly when the
tracked position is positive (sells with no matching open lot are excluded)
and is a win exactly when its price exceeds that opening-price basis; the
reported win rate is wins / counted sells. -/
theorem c7_win_rate_opening_price_basis :
    (∀ (pos : ℤ) (basis : ℚ) (wins paired : ℕ) (t : Trade) (ts : List Trade),
      t.action = "buy" →
      symbolWinLoop pos basis wins paired (t :: ts)
        = symbolWinLoop (pos + t.quantity) (if pos = 0 then t.price else basis)
            wins paired ts)
    ∧ (∀ (pos : ℤ) (basis : ℚ) (wins paired : ℕ) (t : Trade) (ts : List Trade),
      t.action = "sell" → 0 < pos → 0 < t.quantity →
      symbolWinLoop pos basis wins paired (t :: ts)
        = symbolWinLoop (pos - t.quantity) basis
            (if basis < t.price then wins + 1 else wins) (paired + 1) ts)
    ∧ (∀ (pos : ℤ) (basis : ℚ) (wins paired : ℕ) (t : Trade) (ts : List Trade),
      t.action = "sell" → pos ≤ 0 →
      symbolWinLoop pos basis wins paired (t :: ts)
        = symbolWinLoop pos basis wins paired ts)
    ∧ (∀ r : BacktestResult, r.daily_returns ≠ [] → 0 < (winStats r.trades).2 →
      (calculateMetrics r).summary.win_rate
        = ((winStats r.trades).1 : ℚ) / ((winStats r.trades).2 : ℚ)) := by
  refine ⟨?_, ?_, ?_, ?_⟩
  · intro pos basis wins paired t ts h
    simp [symbolWinLoop, h]
  · intro pos basis wins paired t ts h hpos hqt
    have hne : ¬ (t.action = "buy") := by rw [h]; decide
    have hmin : (0 : ℚ) < ((min t.quantity pos : ℤ) : ℚ) := by
      exact_mod_cast lt_min hqt hpos
    have harg : (if 0 < (t.price - basis) * ((min t.quantity pos : ℤ) : ℚ)
          then wins + 1 else wins)
        = (if basis < t.price then wins + 1 else wins) := by
      refine if_congr ?_ rfl rfl
      constructor
      · intro hp; nlinarith
      · intro hp; nlinarith
    simp only [symbolWinLoop]
    rw [if_neg hne, if_pos h, if_pos hpos, harg]
  · intro pos basis wins paired t ts h hpos
    have hne : ¬ (t.action = "buy") := by rw [h]; decide
    simp only [symbolWinLoop]
    rw [if_neg hne, if_pos h, if_neg (not_lt.2 hpos)]
  · intro r hd hp
    exact calculateMetrics_win_rate r hd hp

/-- Claim C7 counterexample: buys of 100 shares at 10 and at 30 give a
weighted-average basis of 20, so the claimed rule calls the sell of 200 at 15
a loss (0 wins of 1 counted sell); the source instead keeps the opening buy's
price 10 as basis and counts a win (1 win of 1) — the computation does not
pair with a weighted-average basis. -/
theorem c7_counterexample :
    winStats [ ⟨"000001", "20240101", "buy", 100, 10, 1000, 0⟩,
               ⟨"000001", "20240102", "buy", 100, 30, 3000, 0⟩,
               ⟨"000001", "20240103", "sell", 200, 15, 3000, 0⟩ ] = (1, 1)
    ∧ claimWinStats [ ⟨"000001", "20240101", "buy", 100, 10, 1000, 0⟩,
               ⟨"000001", "20240102", "buy", 100, 30, 3000, 0⟩,
               ⟨"000001", "20240103", "sell", 200, 15, 3000, 0⟩ ] = (0, 1)
    ∧ winStats [ ⟨"000001", "20240101", "buy", 100, 10, 1000, 0⟩,
               ⟨"000001", "20240102", "buy", 100, 30, 3000, 0⟩,
               ⟨"000001", "20240103", "sell", 200, 15, 3000, 0⟩ ]
      ≠ claimWinStats [ ⟨"000001", "20240101", "buy", 100, 10, 1000, 0⟩,
               ⟨"000001", "20240102", "buy", 100, 30, 3000, 0⟩,
               ⟨"000001", "20240103", "sell", 200, 15, 3000, 0⟩ ] := by decide

/-- Claim C7 witness: the amended sell rule at a concrete counted sell
(position 100 at basis 10, sell 200 at 15 → one win, one counted sell). -/
theorem c7_witness :
    (((⟨"000001", "20240103", "sell", 200, 15, 3000, 0⟩ : Trade).action = "sell")
      ∧ (0 : ℤ) < 100
      ∧ (0 : ℤ) < (⟨"000001", "20240103", "sell", 200, 15, 3000, 0⟩ : Trade).quantity)
    ∧ symbolWinLoop 100 10 0 0 [⟨"000001", "20240103", "sell", 200, 15, 3000, 0⟩]
      = symbolWinLoop
          (100 - (⟨"000001", "20240103", "sell", 200, 15, 3000, 0⟩ : Trade).quantity) 10
          (if (10 : ℚ) < (⟨"000001", "20240103", "sell", 200, 15, 3000, 0⟩ : Trade).price
           then 0 + 1 else 0)
          (0 + 1) [] :=
  ⟨⟨rfl, by decide, by decide⟩,
   c7_win_rate_opening_price_basis.2.1 100 10 0 0
     ⟨"000001", "20240103", "sell", 200, 15, 3000, 0⟩ [] rfl (by decide) (by decide)⟩

end DataDig
